import Mathlib

/-!
Verification development for the `sesh` shell (`src/main.rs`, `src/escapes.rs`,
`src/builtins.rs`).  Text is modelled as `List Char` (the character sequence of
a Rust `String`); machine integers (`i32` exit codes, fd numbers) as `Int` with
explicit range checks where the source parses them; fallible code returns
`Option`/`Except`, with `none` standing for a Rust panic.  OS effects (process
spawning, builtin handlers, file opening) are parameters of the evaluator
model, everything else is translated directly from the source.
-/

/-- The apostrophe character (written via its code point). -/
def aposChar : Char := Char.ofNat 39

/-- The backtick character (written via its code point). -/
def btickChar : Char := Char.ofNat 96

/-- Append one character to the `i`-th string of `out` (Rust `out[i].push(ch)`). -/
def pushAt (out : List (List Char)) (i : Nat) (ch : Char) : List (List Char) :=
  out.set i ((out.getD i []) ++ [ch])

/-- Rust `str::trim` on the ASCII fragment: drop leading and trailing whitespace. -/
def trimChars (l : List Char) : List Char :=
  ((l.dropWhile Char.isWhitespace).reverse.dropWhile Char.isWhitespace).reverse

/-! ## Escape interpreter (`src/escapes.rs`) -/

/-- Error type of the escape interpreter (`EscapeError` in `escapes.rs`). -/
inductive EscapeError where
  | escapeAtEndOfString : EscapeError
  | invalidUnicodeChar : Char → EscapeError
  | invalidUnicodeCodepoint : Nat → EscapeError
deriving DecidableEq, Repr

/-- Rust `char::to_ascii_lowercase`. -/
def asciiLower (c : Char) : Char :=
  if 'A' ≤ c ∧ c ≤ 'Z' then Char.ofNat (c.toNat + 32) else c

/-- The check applied to each (lowercased) character of a `\u`-style escape:
`c.is_numeric() || ['a','b','c','d','e','f'].contains(&c)`; `is_numeric` is
modelled on the ASCII fragment as `isDigit`. -/
def isHexOk (c : Char) : Bool :=
  c.isDigit || c ∈ ['a', 'b', 'c', 'd', 'e', 'f']

/-- Value of one hex digit (only used under `isHexOk`). -/
def hexVal (c : Char) : Nat :=
  if c.isDigit then c.toNat - '0'.toNat else c.toNat - 'a'.toNat + 10

/-- Decode the four-character code of a `\u`/`\U`/`\x` escape, as in
`InterpretEscapedString::next`: lowercase, check each character, assemble the
code point, and validate it with `char::from_u32`. -/
def decodeUnicode (c1 c2 c3 c4 : Char) : Except EscapeError Char :=
  let l1 := asciiLower c1
  let l2 := asciiLower c2
  let l3 := asciiLower c3
  let l4 := asciiLower c4
  if ¬ isHexOk l1 then .error (.invalidUnicodeChar l1)
  else if ¬ isHexOk l2 then .error (.invalidUnicodeChar l2)
  else if ¬ isHexOk l3 then .error (.invalidUnicodeChar l3)
  else if ¬ isHexOk l4 then .error (.invalidUnicodeChar l4)
  else
    let code := ((hexVal l1 * 16 + hexVal l2) * 16 + hexVal l3) * 16 + hexVal l4
    if code < 0xd800 ∨ (0xe000 ≤ code ∧ code < 0x110000) then .ok (Char.ofNat code)
    else .error (.invalidUnicodeCodepoint code)

/-- `interpret_escaped_string` from `escapes.rs`: the collected iterator, which
stops at the first error.  A backslash-newline pair is silently absorbed
(the `ret_next` path of `next`). -/
def interpret_escaped_string : List Char → Except EscapeError (List Char)
  | [] => .ok []
  | c :: rest =>
    if c = '\\' then
      match rest with
      | [] => .error .escapeAtEndOfString
      | e :: rest2 =>
        if e = 'n' then (interpret_escaped_string rest2).map ('\n' :: ·)
        else if e = 't' then (interpret_escaped_string rest2).map ('\t' :: ·)
        else if e = '\\' then (interpret_escaped_string rest2).map ('\\' :: ·)
        else if e = '"' then (interpret_escaped_string rest2).map ('"' :: ·)
        else if e = aposChar then (interpret_escaped_string rest2).map (aposChar :: ·)
        else if e = 'e' then (interpret_escaped_string rest2).map ('\x1b' :: ·)
        else if e = '\n' then interpret_escaped_string rest2
        else if e = 'u' ∨ e = 'U' ∨ e = 'x' then
          match rest2 with
          | c1 :: c2 :: c3 :: c4 :: rest3 =>
            match decodeUnicode c1 c2 c3 c4 with
            | .ok ch => (interpret_escaped_string rest3).map (ch :: ·)
            | .error err => .error err
          | _ => .error .escapeAtEndOfString
        else (interpret_escaped_string rest2).map (e :: ·)
    else (interpret_escaped_string rest).map (c :: ·)

deriving instance DecidableEq for Except

/-! ## Redirection model (`Indirect`, `IndirectRes`, `is_indirect` in `main.rs`) -/

/-- `Indirect` from `main.rs`: the target of a redirection. -/
inductive Indirect where
  | default : Indirect
  | stdout : Indirect
  | stderr : Indirect
  | fd : Int → Indirect
  | path : List Char → Indirect
  | nextStatement : Indirect
  | prevStatement : Indirect
deriving DecidableEq, Repr

/-- `IndirectRes` from `main.rs`: classification of one token. -/
inductive IndirectRes where
  | statement : List Char → IndirectRes
  | stdin : Indirect → IndirectRes
  | stdout : Indirect → IndirectRes
  | stderr : Indirect → IndirectRes
deriving DecidableEq, Repr

/-- `IndirectRes::is_statement`. -/
def IndirectRes.isStatement : IndirectRes → Bool
  | .statement _ => true
  | _ => false

/-- `IndirectRes::unwrap_statement`, totalised with `[]` for the panic case
(never reached where it is used: the argument is always a `statement`). -/
def IndirectRes.unwrapStatement : IndirectRes → List Char
  | .statement v => v
  | _ => []

/-- All-decimal-digit check used by the `i32` parser model. -/
def allDigits : List Char → Bool
  | [] => true
  | c :: l => c.isDigit && allDigits l

/-- Numeric value of a digit string. -/
def digitsToNat : List Char → Nat
  | [] => 0
  | c :: l => digitsToNatGo (c.toNat - '0'.toNat) l
where
  /-- accumulator loop -/
  digitsToNatGo (acc : Nat) : List Char → Nat
    | [] => acc
    | c :: l => digitsToNatGo (acc * 10 + (c.toNat - '0'.toNat)) l

/-- Rust `str::parse::<i32>`: optional sign, at least one digit, `i32` range. -/
def parseI32 (s : List Char) : Option Int :=
  match s with
  | [] => none
  | '+' :: rest =>
    if rest ≠ [] ∧ allDigits rest ∧ digitsToNat rest ≤ 2147483647 then
      some (digitsToNat rest) else none
  | '-' :: rest =>
    if rest ≠ [] ∧ allDigits rest ∧ digitsToNat rest ≤ 2147483648 then
      some (-(digitsToNat rest : Int)) else none
  | _ =>
    if allDigits s ∧ digitsToNat s ≤ 2147483647 then some (digitsToNat s) else none

/-- Rust `str::split_once`: split at the first occurrence of `c`. -/
def splitOnceAt (c : Char) : List Char → Option (List Char × List Char)
  | [] => none
  | x :: xs =>
    if x = c then some ([], xs)
    else (splitOnceAt c xs).map (fun p => (x :: p.1, p.2))

/-- `is_indirect_inner` from `main.rs`. -/
def isIndirectInner (i0 i1 : List Char) : Indirect :=
  if i1 = [] then
    if i0 = ['0'] then .prevStatement else .nextStatement
  else if i0 = ['0'] then
    match parseI32 i1 with
    | some n => .fd n
    | none => .path i1
  else if i1 = ['1'] then .stdout
  else if i1 = ['2'] then .stderr
  else
    match parseI32 i1 with
    | some n => .fd n
    | none => .path i1

/-- Error message of `is_indirect`. -/
def unknownIndirectMsg : List Char := ("unknown indirect from").data

/-- `is_indirect` from `main.rs`: classify one token. -/
def is_indirect (s : List Char) : Except (List Char) IndirectRes :=
  match splitOnceAt '@' s with
  | some (i0, i1) =>
    if i0 = ['0'] then .ok (.stdin (isIndirectInner i0 i1))
    else if i0 = ['1'] then .ok (.stdout (isIndirectInner i0 i1))
    else if i0 = ['2'] then .ok (.stderr (isIndirectInner i0 i1))
    else .error unknownIndirectMsg
  | none => .ok (.statement s)

/-! ## Tokenizer (`split_statement` in `main.rs`) -/

/-- Mutable locals of the `split_statement` loop. -/
structure SplitSt where
  out : List (List Char)
  i : Nat
  inStr : Bool
  strCh : Char
  escape : Bool
  f : Nat
  strIdx : Nat
deriving DecidableEq, Repr

/-- The quote/group opening characters checked by `split_statement`. -/
def quoteChars : List Char := ['"', aposChar, btickChar, '(', '[']

/-- One iteration of the `split_statement` character loop, in source order:
set `escape` on a backslash outside a string, close an open group, open a
group (a `[` only when the statement-global counter `f` is not `≤ 1`), split
on a space, or append the character to the current token. -/
def splitStep (st : SplitSt) (ch : Char) : SplitSt :=
  let esc0 := if ch = '\\' ∧ ¬ st.inStr then true else st.escape
  if st.inStr ∧ st.strCh = ch then
    let out1 := if ch = ']' then pushAt st.out st.i ch else st.out
    let out2 :=
      if ch = ')' ∧ st.f = st.strIdx + 1 then
        pushAt (pushAt out1 st.i '(') st.i ')'
      else out1
    { st with out := out2, inStr := false, escape := false, f := st.f + 1 }
  else if ch ∈ quoteChars ∧ ¬ esc0 ∧ ¬ st.inStr ∧ ¬ (ch = '[' ∧ st.f ≤ 1) then
    let sc := if ch = '(' then ')' else if ch = '[' then ']' else ch
    let out1 := if ch = '[' then pushAt st.out st.i ch else st.out
    { st with inStr := true, strCh := sc, out := out1, escape := false,
              strIdx := st.f, f := st.f + 1 }
  else if ¬ st.inStr ∧ ch = ' ' then
    let i1 := st.i + 1
    let out1 := if st.out.length ≤ i1 then st.out ++ [[]] else st.out
    { st with i := i1, out := out1, escape := false, f := st.f + 1 }
  else
    { st with out := pushAt st.out st.i ch, escape := false, f := st.f + 1 }

/-- Initial state of the `split_statement` loop (`str_idx = usize::MAX`). -/
def initSplitSt : SplitSt :=
  { out := [[]], i := 0, inStr := false, strCh := ' ', escape := false,
    f := 0, strIdx := 18446744073709551615 }

/-- `split_statement` from `main.rs`: run the character loop, trim each token,
classify each token with `is_indirect`. -/
def split_statement (stmt : List Char) : List (Except (List Char) IndirectRes) :=
  ((stmt.foldl splitStep initSplitSt).out.map trimChars).map is_indirect

/-! ## Comment stripping (`remove_comments` in `main.rs`) -/

/-- The `remove_comments` loop, with the `in_comment` flag explicit. -/
def removeCommentsGo : Bool → List Char → List Char
  | _, [] => []
  | true, c :: cs =>
    if c = '\n' then c :: removeCommentsGo false cs else removeCommentsGo true cs
  | false, c :: cs =>
    if c = '#' then removeCommentsGo true cs else c :: removeCommentsGo false cs

/-- `remove_comments` from `main.rs`. -/
def remove_comments (cs : List Char) : List Char := removeCommentsGo false cs

/-! ## Logical-line splitting (`split_lines` in `main.rs`) -/

/-- One iteration of the `split_lines` loop over state `(out, i, escape_line)`:
an unescaped newline advances the line index; otherwise the character marks
the escape flag if it is a backslash, `out` is padded up to index `i`
(the `while i >= out.len()` loop), and the character is appended to line `i`. -/
def splitLinesStep (st : List (List Char) × Nat × Bool) (ch : Char) :
    List (List Char) × Nat × Bool :=
  match st with
  | (out, i, esc) =>
    if ch = '\n' ∧ esc = false then (out, i + 1, esc)
    else
      let esc1 := if ch = '\\' then true else esc
      let out1 := out ++ List.replicate (i + 1 - out.length) []
      (pushAt out1 i ch, i, esc1)

/-- `split_lines` from `main.rs`. -/
def split_lines (cs : List Char) : List (List Char) :=
  (cs.foldl splitLinesStep ([[]], 0, false)).1

/-- Split a character list on a separator character (Rust `str::split`). -/
def splitOnChar (sep : Char) : List Char → List (List Char)
  | [] => [[]]
  | c :: cs =>
    let rest := splitOnChar sep cs
    if c = sep then [] :: rest
    else
      match rest with
      | [] => [[c]]
      | r :: rs => (c :: r) :: rs

/-- `split_statements` from `main.rs`: split into logical lines, split each
line on `;`, trim every fragment, and flatten. -/
def split_statements (cs : List Char) : List (List Char) :=
  ((split_lines cs).map (fun v => (splitOnChar ';' v).map trimChars)).flatten

/-! ## Shell variables and garbage collection (`garbage_collect_vars`) -/

/-- `ShellVar` from `main.rs`. -/
structure ShellVar where
  name : List Char
  value : List Char
deriving DecidableEq, Repr

/-- Ordering on characters by code point (Rust `char`/byte ordering on ASCII). -/
def cmpChars : List Char → List Char → Ordering
  | [], [] => .eq
  | [], _ :: _ => .lt
  | _ :: _, [] => .gt
  | a :: as', b :: bs' =>
    match compare a b with
    | .eq => cmpChars as' bs'
    | o => o

/-- Stable insertion of `a` into a sorted list: `a` goes before the first
element it is `le`-related to, preserving the order of equal elements. -/
def orderedInsertB (le : α → α → Bool) (a : α) : List α → List α
  | [] => [a]
  | b :: l => if le a b then a :: b :: l else b :: orderedInsertB le a l

/-- Stable insertion sort; agrees with Rust's stable `sort_by` (the output of
a stable sort is uniquely determined by the comparator). -/
def insertionSortB (le : α → α → Bool) : List α → List α
  | [] => []
  | a :: l => orderedInsertB le a (insertionSortB le l)

/-- Rust `Vec::remove(i)`: remove the element at `i`, shifting the tail;
panics (`none`) when `i` is out of bounds. -/
def vecRemove (l : List α) (i : Nat) : Option (List α) :=
  if i < l.length then some (l.take i ++ l.drop (i + 1)) else none

/-- The first loop of `garbage_collect_vars`: collect the indexes (in the
reversed table) of every entry whose name was already seen. -/
def gcRemoveIndexes : List ShellVar → List (List Char) → Nat → List Nat
  | [], _, _ => []
  | v :: rest, seen, i =>
    if v.name ∈ seen then i :: gcRemoveIndexes rest seen (i + 1)
    else gcRemoveIndexes rest (v.name :: seen) (i + 1)

/-- The second loop of `garbage_collect_vars`: `Vec::remove` at each recorded
index in order, against the vector as it shrinks. -/
def gcApplyRemovals : List ShellVar → List Nat → Option (List ShellVar)
  | l, [] => some l
  | l, i :: is' =>
    match vecRemove l i with
    | some l1 => gcApplyRemovals l1 is'
    | none => none

/-- `garbage_collect_vars` from `main.rs`: reverse, drop already-seen names by
index, and sort by name (stable). `none` models the `Vec::remove` panic. -/
def garbage_collect_vars (env : List ShellVar) : Option (List ShellVar) :=
  let rev := env.reverse
  match gcApplyRemovals rev (gcRemoveIndexes rev [] 0) with
  | some env1 =>
    some (insertionSortB (fun a b => cmpChars a.name b.name ≠ .gt) env1)
  | none => none

/-! ## Aliases (`Alias` and the alias loop in `eval`, `main.rs`) -/

/-- `Alias` from `main.rs`. -/
structure Alias where
  name : List Char
  toStr : List Char
deriving DecidableEq, Repr

/-- The plain-word tokens of an alias replacement: `split_statement(&alias.to)`
keeping only `Ok` statement tokens (redirections in the body are dropped). -/
def aliasToSplit (al : Alias) : List (List Char) :=
  (((split_statement al.toStr).filterMap Except.toOption).filter
    IndirectRes.isStatement).map IndirectRes.unwrapStatement

/-- The alias `for` loop of `eval`: a single ordered pass over the table; on a
match the replacement words (after the first) are spliced in at position 1 of
the token list, the first word becomes the program name, and the pass
continues with the remaining table entries.  `none` models the
`to_split[0]` / `Vec::insert` panics on an empty list. -/
def expandAliasesGo : List Alias → List Char → List (List Char) →
    Option (List Char × List (List Char))
  | [], prog, split => some (prog, split)
  | al :: rest, prog, split =>
    if prog = al.name then
      match aliasToSplit al with
      | [] => none
      | w :: ws =>
        match split with
        | [] => none
        | s0 :: srest => expandAliasesGo rest w (s0 :: (ws ++ srest))
    else expandAliasesGo rest prog split

/-! ## Interactive line editor: history recall (arrow handling in `main`) -/

/-- The three pieces of editor state the arrow-key branches touch:
`hist_ptr`, the `input` buffer, and the `curr_inp_hist` stash. -/
structure EditSt where
  histPtr : Nat
  input : List Char
  stash : List Char
deriving DecidableEq, Repr

/-- The up-arrow branch (`[91, 65]`) of `main`: when `hist_ptr` can be
decremented, decrement it, stash the current buffer, and load the history
entry at the new pointer. -/
def editorUp (hist : List (List Char)) (s : EditSt) : EditSt :=
  if 1 ≤ s.histPtr then
    { histPtr := s.histPtr - 1, stash := s.input,
      input := hist.getD (s.histPtr - 1) [] }
  else s

/-- The down-arrow branch (`[91, 66]`) of `main`: move forward in history if
`hist_ptr + 1` is in range, otherwise reset the pointer past the newest entry
and restore the stash. -/
def editorDown (hist : List (List Char)) (s : EditSt) : EditSt :=
  if s.histPtr + 1 < hist.length then
    { histPtr := s.histPtr + 1, stash := s.stash,
      input := hist.getD (s.histPtr + 1) [] }
  else
    { histPtr := hist.length, stash := s.stash, input := s.stash }

/-! ## Evaluator statement loop (`eval` in `main.rs`) -/

/-- Constructor tag of an `IndirectRes`, in source declaration order
(the derived Rust `Ord` compares tags first). -/
def irTag : IndirectRes → Nat
  | .statement _ => 0
  | .stdin _ => 1
  | .stdout _ => 2
  | .stderr _ => 3

/-- Constructor tag of an `Indirect`, in source declaration order. -/
def indTag : Indirect → Nat
  | .default => 0
  | .stdout => 1
  | .stderr => 2
  | .fd _ => 3
  | .path _ => 4
  | .nextStatement => 5
  | .prevStatement => 6

/-- Derived `Ord` on `Indirect`: tag order, then the payload. -/
def cmpIndirect : Indirect → Indirect → Ordering
  | .fd m, .fd n => compare m n
  | .path p, .path q => cmpChars p q
  | a, b => compare (indTag a) (indTag b)

/-- Derived `Ord` on `IndirectRes`: tag order, then the payload. -/
def cmpIndirectRes : IndirectRes → IndirectRes → Ordering
  | .statement s, .statement t => cmpChars s t
  | .stdin x, .stdin y => cmpIndirect x y
  | .stdout x, .stdout y => cmpIndirect x y
  | .stderr x, .stderr y => cmpIndirect x y
  | a, b => compare (irTag a) (irTag b)

/-- The comparator closure passed to `indirects.sort_by` in `eval`: two
directives for the same stream compare equal, anything else falls back to the
derived ordering. -/
def evalIndirectCmp (a b : IndirectRes) : Ordering :=
  match a, b with
  | .stderr _, .stderr _ => .eq
  | .stdout _, .stdout _ => .eq
  | .stdin _, .stdin _ => .eq
  | _, _ => cmpIndirectRes a b

/-- Boolean `≤` for the stable sort of the redirection list. -/
def irLe (a b : IndirectRes) : Bool := evalIndirectCmp a b ≠ .gt

/-- Rust `Vec::dedup`: drop consecutive repeated elements, keeping the first
of each run. -/
def dedupConsec [DecidableEq α] : List α → List α
  | [] => []
  | a :: l => a :: dedupConsecGo a l
where
  /-- tail loop carrying the previously kept element -/
  dedupConsecGo [DecidableEq α] (prev : α) : List α → List α
    | [] => []
    | b :: l => if prev = b then dedupConsecGo prev l else b :: dedupConsecGo b l

/-- First tokenisation error of a statement, if any (`find(|v| v.is_err())`). -/
def firstErr (stmt : List Char) : Option (List Char) :=
  (split_statement stmt).findSome? fun r =>
    match r with
    | .error e => some e
    | .ok _ => none

/-- The successfully classified tokens of a statement. -/
def stmtTokens (stmt : List Char) : List IndirectRes :=
  (split_statement stmt).filterMap Except.toOption

/-- The plain-argument tokens of a statement (`filter is_statement`, unwrapped). -/
def stmtParts (stmt : List Char) : List (List Char) :=
  ((stmtTokens stmt).filter IndirectRes.isStatement).map IndirectRes.unwrapStatement

/-- The redirection deduplication of `eval`: stable `sort_by` with
`evalIndirectCmp` (grouping directives of the same stream, keeping their
original order), then `Vec::dedup` (dropping consecutive equal elements). -/
def dedupIndirects (l : List IndirectRes) : List IndirectRes :=
  dedupConsec (insertionSortB irLe l)

/-- The redirection tokens of a statement, after `dedupIndirects`. -/
def stmtIndirects (stmt : List Char) : List IndirectRes :=
  dedupIndirects ((stmtTokens stmt).filter fun t => ¬ t.isStatement)

/-- Whether wiring this redirection set would reach a `todo!()` arm
(`Indirect::NextStatement` / `Indirect::PrevStatement` under any stream). -/
def hasTodoIndirect (l : List IndirectRes) : Bool :=
  l.any fun r =>
    match r with
    | .statement _ => false
    | .stdin i | .stdout i | .stderr i =>
      match i with
      | .nextStatement | .prevStatement => true
      | _ => false

/-- The part of `State` the statement loop reads and writes, plus the lines it
prints (`shell_env`, `aliases`; `out` collects `println!` diagnostics). -/
structure EvalSt where
  shellEnv : List ShellVar
  aliases : List Alias
  out : List (List Char)
deriving Repr

/-- Record one printed line. -/
def pushOut (st : EvalSt) (msg : List Char) : EvalSt :=
  { st with out := st.out ++ [msg] }

/-- The name of the status variable. -/
def statusName : List Char := ("STATUS").data

/-- Rust `Vec::swap_remove(i)`: replace the element at `i` with the last
element and shrink; panics (`none`) when `i` is out of bounds. -/
def swapRemove (l : List α) (i : Nat) : Option (List α) :=
  match l.getLast? with
  | none => none
  | some last => if i < l.length then some ((l.set i last).dropLast) else none

/-- The STATUS-removal loop of `eval`: iterate over a clone of the table with
its original indexes, `swap_remove` the current table at each index whose
cloned entry is named `STATUS`. -/
def removeStatusGo : List (Nat × ShellVar) → List ShellVar → Option (List ShellVar)
  | [], cur => some cur
  | (i, v) :: rest, cur =>
    if v.name = statusName then
      match swapRemove cur i with
      | some cur1 => removeStatusGo rest cur1
      | none => none
    else removeStatusGo rest cur

/-- Remove `STATUS` entries the way `eval` does. -/
def removeStatusLoop (env : List ShellVar) : Option (List ShellVar) :=
  removeStatusGo env.enum env

/-- Last element of a list (structural helper for `statusOf`). -/
def lastElem {α : Type} : List α → Option α
  | [] => none
  | [a] => some a
  | _ :: b :: l => lastElem (b :: l)

/-- The last-pushed `STATUS` binding of a table. -/
def statusOf (env : List ShellVar) : Option (List Char) :=
  (lastElem (env.filter fun v => v.name = statusName)).map ShellVar.value

/-- The builtin registry names, in source order (`BUILTINS` in `builtins.rs`). -/
def builtinNames : List (List Char) :=
  [("cd").data, ("exit").data, ("echo").data, ("alias").data, ("help").data,
   ("source").data, ("loadf").data, ("splitf").data, ("set").data,
   ("dumpvars").data, ("unset").data, ("copyf").data, ("pastef").data,
   ("setf").data, ("getf").data, ("()").data, ("nop").data, ("if").data,
   ("while").data, ("gay").data]

/-- Oracle for a builtin handler: given the program name, the token list, the
raw statement text and the state, produce the returned status and the new
state (the handlers are IO-bound; their effect is a parameter of the model). -/
def BuiltinFn : Type := List Char → List (List Char) → List Char → EvalSt → Int × EvalSt

/-- Oracle for `Command::spawn` + `wait`: given program name and arguments,
`none` is a spawn error, `some code` a spawned child whose `code()` is
`code` (`none` inside meaning signal termination, turned into 255). -/
def SpawnFn : Type := List Char → List (List Char) → Option (Option Int)

/-- Diagnostic line printed on a spawn error (the OS error text that the
source appends with `{}` is elided). -/
def spawnErrMsg : List Char := ("sesh: error spawning program").data

/-- Warning printed when a builtin receives more than one redirection. -/
def builtinWarnMsg : List Char := ("sesh: warning: indirects ignored for builtin").data

/-- Diagnostic printed when the program name token is a redirection. -/
def progIndirectMsg : List Char := ("sesh: program name is indirect" ++ "\r").data

/-- One iteration of the statement loop of `eval`, in source order.
`some (true, st)` is `continue`, `some (false, st)` is `return` (abort the
remaining statements of the call), `none` is a panic / `todo!()`. -/
def evalStatement (bR : BuiltinFn) (sp : SpawnFn) (stmt : List Char)
    (st : EvalSt) : Option (Bool × EvalSt) :=
  match firstErr stmt with
  | some e => some (false, pushOut st (("sesh: ").data ++ e ++ ['\r']))
  | none =>
  match stmtTokens stmt with
  | [] => none
  | t0 :: _ =>
  match t0 with
  | .stdin _ | .stdout _ | .stderr _ => some (false, pushOut st progIndirectMsg)
  | .statement _ =>
  match stmtParts stmt with
  | [] => none
  | p0 :: prest =>
  if stmt = [] ∨ p0 = [] then some (true, st)
  else
  match expandAliasesGo st.aliases p0 (p0 :: prest) with
  | none => none
  | some (prog, parts2) =>
  if prog ∈ builtinNames then
    let st1 := if 1 < (stmtIndirects stmt).length then pushOut st builtinWarnMsg else st
    let res := bR prog parts2 stmt st1
    match garbage_collect_vars res.2.shellEnv with
    | none => none
    | some env1 =>
    match removeStatusLoop env1 with
    | none => none
    | some env2 =>
      some (true, { res.2 with
        shellEnv := env2 ++ [⟨statusName, (toString res.1).data⟩] })
  else
  if hasTodoIndirect (stmtIndirects stmt) then none
  else
  match sp prog (parts2.drop 1) with
  | some code =>
    match removeStatusLoop st.shellEnv with
    | none => none
    | some env2 =>
      some (true, { st with
        shellEnv := env2 ++ [⟨statusName, (toString (code.getD 255)).data⟩] })
  | none =>
    let st1 := pushOut st spawnErrMsg
    match removeStatusLoop st1.shellEnv with
    | none => none
    | some env2 =>
      some (false, { st1 with
        shellEnv := env2 ++ [⟨statusName, ("127").data⟩] })

/-- The `for statement in statements` loop of `eval`: run each statement,
stopping early on a `return`. -/
def evalStatements (bR : BuiltinFn) (sp : SpawnFn) :
    List (List Char) → EvalSt → Option EvalSt
  | [], st => some st
  | stmt :: rest, st =>
    match evalStatement bR sp stmt st with
    | none => none
    | some (false, st1) => some st1
    | some (true, st1) => evalStatements bR sp rest st1

/-! ## Helper lemmas -/

theorem list_getD_set_self {α : Type} (l : List α) (i : Nat) (x d : α)
    (h : i < l.length) : (l.set i x).getD i d = x := by
  induction l generalizing i with
  | nil => simp at h
  | cons a l ih =>
    cases i with
    | zero => rfl
    | succ n => simpa using ih n (by simpa using h)

theorem list_set_getD_self {α : Type} (l : List α) (i : Nat) (d : α)
    (h : i < l.length) : l.set i (l.getD i d) = l := by
  induction l generalizing i with
  | nil => simp at h
  | cons a l ih =>
    cases i with
    | zero => rfl
    | succ n => simpa using ih n (by simpa using h)

theorem lastElem_append_singleton {α : Type} (l : List α) (x : α) :
    lastElem (l ++ [x]) = some x := by
  induction l with
  | nil => rfl
  | cons a l ih =>
    cases l with
    | nil => rfl
    | cons b t => simpa [lastElem, List.cons_append] using ih

theorem expandAliasesGo_not_mem (aliases : List Alias) (prog : List Char)
    (split : List (List Char)) (h : prog ∉ aliases.map Alias.name) :
    expandAliasesGo aliases prog split = some (prog, split) := by
  induction aliases with
  | nil => rfl
  | cons al rest ih =>
    simp only [List.map_cons, List.mem_cons] at h
    push_neg at h
    simp [expandAliasesGo, h.1, ih h.2]

theorem removeCommentsGo_no_hash (pre : List Char) (h : '#' ∉ pre)
    (x : List Char) :
    removeCommentsGo false (pre ++ x) = pre ++ removeCommentsGo false x := by
  induction pre with
  | nil => rfl
  | cons c cs ih =>
    simp only [List.mem_cons] at h
    push_neg at h
    simp [removeCommentsGo, Ne.symm h.1, ih h.2]

theorem removeCommentsGo_comment (seg : List Char) (h : '\n' ∉ seg)
    (rest : List Char) :
    removeCommentsGo true (seg ++ '\n' :: rest)
      = '\n' :: removeCommentsGo false rest := by
  induction seg with
  | nil => simp [removeCommentsGo]
  | cons c cs ih =>
    simp only [List.mem_cons] at h
    push_neg at h
    simp [removeCommentsGo, Ne.symm h.1, ih h.2]

theorem splitOnceAt_append (c : Char) (pre post : List Char) (h : c ∉ pre) :
    splitOnceAt c (pre ++ c :: post) = some (pre, post) := by
  induction pre with
  | nil => simp [splitOnceAt]
  | cons a pre ih =>
    simp only [List.mem_cons] at h
    push_neg at h
    simp [splitOnceAt, Ne.symm h.1, ih h.2]

theorem splitLines_foldl_escaped (cs : List Char) :
    ∀ (out : List (List Char)) (i : Nat), i < out.length →
      cs.foldl splitLinesStep (out, i, true)
        = (out.set i (out.getD i [] ++ cs), i, true) := by
  induction cs with
  | nil =>
    intro out i h
    simp only [List.foldl_nil, List.append_nil,
      list_set_getD_self out i ([] : List Char) h]
  | cons c cs ih =>
    intro out i h
    have hstep : splitLinesStep (out, i, true) c
        = (out.set i (out.getD i [] ++ [c]), i, true) := by
      simp [splitLinesStep, pushAt, Nat.sub_eq_zero_of_le h]
    rw [List.foldl_cons, hstep, ih _ i (by simpa using h),
        list_getD_set_self out i _ [] h, List.set_set]
    simp

/-! ## Claim theorems -/

/-- C1, counterexample: two stdout redirection tokens with different targets
(`1@a` and `1@b`) in one statement both survive deduplication — the claim
that any two stdout tokens collapse to exactly one regardless of their
targets is false on the code. -/
theorem c1_counterexample :
    stmtIndirects (("p 1@a 1@b").data)
      = [IndirectRes.stdout (Indirect.path (("a").data)),
         IndirectRes.stdout (Indirect.path (("b").data))] ∧
    (stmtIndirects (("p 1@a 1@b").data)).length ≠ 1 := by
  constructor <;> decide

/-- C1, amended: `Vec::dedup` after the stable same-stream grouping sort
removes only consecutive equal elements.  When a statement's redirections are
exactly two stdout tokens, they collapse to exactly one precisely when their
targets are equal (keeping the earliest), and both survive otherwise — so
`1@a 1@a` collapses to one directive — but the collapse does not extend
further: with three stdout tokens `1@a 1@b 1@a` the stable sort keeps the
order `a, b, a` and the two identical `a` directives, not being adjacent,
both survive. -/
theorem c1_dedup_identical_only :
    (∀ d1 d2 : Indirect,
      dedupIndirects [IndirectRes.stdout d1, IndirectRes.stdout d2]
        = if d1 = d2 then [IndirectRes.stdout d1]
          else [IndirectRes.stdout d1, IndirectRes.stdout d2]) ∧
    stmtIndirects (("p 1@a 1@a").data)
      = [IndirectRes.stdout (Indirect.path (("a").data))] ∧
    stmtIndirects (("p 1@a 1@b 1@a").data)
      = [IndirectRes.stdout (Indirect.path (("a").data)),
         IndirectRes.stdout (Indirect.path (("b").data)),
         IndirectRes.stdout (Indirect.path (("a").data))] := by
  refine ⟨?_, by decide, by decide⟩
  intro d1 d2
  by_cases h : d1 = d2
  · subst h
    simp [dedupIndirects, insertionSortB, orderedInsertB, irLe, evalIndirectCmp,
      dedupConsec, dedupConsec.dedupConsecGo]
  · simp [dedupIndirects, insertionSortB, orderedInsertB, irLe, evalIndirectCmp,
      dedupConsec, dedupConsec.dedupConsecGo, h]

/-- C2: the garbage-collection pass panics (`Vec::remove` out of bounds) on a
table holding three entries with the same name, because the removal indexes
are computed against the reversed table before any removal shifts it; the
claimed result (one entry per name, most recent value, name-sorted) is never
produced on this input. -/
theorem c2_gc_panics_on_three_duplicates :
    garbage_collect_vars
      [⟨("n").data, ("1").data⟩, ⟨("n").data, ("2").data⟩,
       ⟨("n").data, ("3").data⟩] = none := by
  decide

/-- C3, counterexample: with the alias table `a -> b`, `b -> c`, evaluating a
statement whose program name is `a` re-expands the replacement `b` through
the later table entry and yields program name `c`, not `b` — alias expansion
does recurse into a chained alias that occurs later in the table. -/
theorem c3_counterexample :
    expandAliasesGo [⟨("a").data, ("b").data⟩, ⟨("b").data, ("c").data⟩]
        (("a").data) [("a").data]
      = some (("c").data, [("a").data]) ∧
    (("c").data : List Char) ≠ ("b").data := by
  constructor <;> decide

/-- C3, amended: alias expansion is a single ordered pass over the table; the
matched alias and entries before it are never re-applied, so when the
replacement's first word does not name any later table entry, exactly one
expansion happens: the first word becomes the program name and the remaining
words are spliced in after the original program token. -/
theorem c3_single_pass (pre : List Alias) (al : Alias) (post : List Alias)
    (args : List (List Char)) (w : List Char) (ws : List (List Char))
    (hpre : al.name ∉ pre.map Alias.name)
    (hto : aliasToSplit al = w :: ws)
    (hpost : w ∉ post.map Alias.name) :
    expandAliasesGo (pre ++ al :: post) al.name (al.name :: args)
      = some (w, al.name :: (ws ++ args)) := by
  induction pre with
  | nil =>
    simp [expandAliasesGo, hto, expandAliasesGo_not_mem post w _ hpost]
  | cons a pre ih =>
    simp only [List.map_cons, List.mem_cons] at hpre
    push_neg at hpre
    simp [expandAliasesGo, hpre.1, ih hpre.2]

/-- C3, witness: the alias `ll -> ls -la` applied to `ll /tmp` expands once,
to program `ls` with token list `ll -la /tmp`. -/
theorem c3_single_pass_witness :
    expandAliasesGo [⟨("ll").data, ("ls -la").data⟩] (("ll").data)
        [("ll").data, ("/tmp").data]
      = some (("ls").data, [("ll").data, ("-la").data, ("/tmp").data]) := by
  have h := c3_single_pass [] ⟨("ll").data, ("ls -la").data⟩ []
    [("/tmp").data] (("ls").data) [("-la").data]
    (by decide) (by decide) (by decide)
  simpa using h

/-- C6, counterexample: with history `a`, `b` and a blank draft, the sequence
Up, Up, Down, Down leaves the buffer holding `b`, not the original blank
draft — the stash is overwritten by every Up, so the final Down does not
restore the blank line. -/
theorem c6_counterexample :
    (editorDown [("a").data, ("b").data]
      (editorDown [("a").data, ("b").data]
        (editorUp [("a").data, ("b").data]
          (editorUp [("a").data, ("b").data] ⟨2, [], []⟩)))).input ≠ [] := by
  decide

/-- C6, amended: with history `a`, `b` and a blank draft, Up, Up, Down, Down
yields buffers `b`, `a`, `b`, `b`: every Up stashes the then-current buffer
(overwriting the previous stash), so the Down that moves past the newest
entry restores the buffer as it stood before the most recent Up (`b`), not
the original blank draft. -/
theorem c6_history_updown :
    (let hist := [("a").data, ("b").data]
     let s1 := editorUp hist ⟨2, [], []⟩
     let s2 := editorUp hist s1
     let s3 := editorDown hist s2
     let s4 := editorDown hist s3
     s1.input = ("b").data ∧ s2.input = ("a").data ∧
       s3.input = ("b").data ∧ s4.input = ("b").data ∧
       s4.stash = ("b").data) := by
  decide

/-- C7, counterexample: a `#` preceded by a backslash still starts a comment:
`remove_comments` on `a\#b` + newline + `c` drops the `#` and everything up
to the newline, so the escaped `#` does not survive in the output. -/
theorem c7_counterexample :
    remove_comments (("a\\#b\nc").data) = ("a\\\nc").data ∧
    '#' ∉ remove_comments (("a\\#b\nc").data) := by
  constructor <;> decide

/-- C7, amended: comment stripping removes the text from each `#` — escaped
or not — to the end of its line and preserves the newline: for any prefix
without a `#` and any comment body without a newline, the text from the `#`
to the line end is removed and processing resumes after the preserved
newline. -/
theorem c7_hash_to_eol (pre seg rest : List Char)
    (hpre : '#' ∉ pre) (hseg : '\n' ∉ seg) :
    remove_comments (pre ++ '#' :: (seg ++ '\n' :: rest))
      = pre ++ '\n' :: remove_comments rest := by
  unfold remove_comments
  rw [removeCommentsGo_no_hash pre hpre]
  simp [removeCommentsGo, removeCommentsGo_comment seg hseg rest]

/-- C7, witness: `remove_comments` on `ab#cd` + newline + `ef` keeps `ab`,
drops `#cd`, and keeps the newline and `ef`. -/
theorem c7_hash_to_eol_witness :
    remove_comments (("ab#cd\nef").data) = ("ab\nef").data := by
  have h := c7_hash_to_eol (("ab").data) (("cd").data) (("ef").data)
    (by decide) (by decide)
  calc remove_comments (("ab#cd\nef").data)
      = ("ab").data ++ '\n' :: remove_comments (("ef").data) := h
    _ = ("ab\nef").data := by decide

/-- C8: the escape interpreter maps `a\tb` (five characters) to `a`, TAB,
`b`; maps `A` to `A`; fails on `\u00zz` with the invalid-character
error citing `z`; and fails on `abc` plus a lone trailing backslash with the
escape-at-end-of-string error. -/
theorem c8_escape_examples :
    interpret_escaped_string (("a\\tb").data) = .ok (("a\tb").data) ∧
    interpret_escaped_string (("\\u0041").data) = .ok (("A").data) ∧
    interpret_escaped_string (("\\u00zz").data)
      = .error (.invalidUnicodeChar 'z') ∧
    interpret_escaped_string (("abc\\").data) = .error .escapeAtEndOfString := by
  refine ⟨?_, ?_, ?_, ?_⟩ <;> decide

/-- C4, counterexample: the bracket condition is the reverse of the claim:
tokenizing `ab[c d]`, whose `[` sits at character counter 2, yields a single
token containing a space (the `[` opened a group), while tokenizing `[a b]`,
whose `[` sits at counter 0, yields two tokens (the `[` was literal). -/
theorem c4_counterexample :
    split_statement (("ab[c d]").data)
      = [Except.ok (IndirectRes.statement (("ab[c d]").data))] ∧
    split_statement (("[a b]").data)
      = [Except.ok (IndirectRes.statement (("[a").data)),
         Except.ok (IndirectRes.statement (("b]").data))] := by
  constructor <;> decide

/-- C4, amended: outside a group and unescaped, a `[` begins a bracket group
only while the statement-global character counter is greater than 1; a `[`
encountered while the counter is at most 1 is treated as a literal character
of the current token. -/
theorem c4_bracket_group_condition (st : SplitSt)
    (h1 : st.inStr = false) (h2 : st.escape = false) :
    (st.f ≤ 1 →
      splitStep st '[' =
        { st with out := pushAt st.out st.i '[', escape := false,
                  f := st.f + 1 }) ∧
    (1 < st.f →
      splitStep st '[' =
        { st with inStr := true, strCh := ']', out := pushAt st.out st.i '[',
                  escape := false, strIdx := st.f, f := st.f + 1 }) := by
  constructor
  · intro hf
    simp +decide [splitStep, h1, h2, hf]
  · intro hf
    have hnf : ¬ st.f ≤ 1 := by omega
    simp +decide [splitStep, h1, h2, hnf, quoteChars]

/-- C4, witness: from the initial tokenizer state (counter 0) a `[` is
appended literally; from the same state with counter 2 it opens a `]`-closed
group. -/
theorem c4_bracket_group_condition_witness :
    splitStep initSplitSt '['
      = { initSplitSt with
          out := pushAt initSplitSt.out 0 '[',
          escape := false, f := 1 } ∧
    splitStep { initSplitSt with f := 2 } '['
      = { initSplitSt with
          inStr := true, strCh := ']',
          out := pushAt initSplitSt.out 0 '[', escape := false,
          strIdx := 2, f := 3 } := by
  constructor
  · exact (c4_bracket_group_condition initSplitSt rfl rfl).1 (by decide)
  · exact (c4_bracket_group_condition { initSplitSt with f := 2 } rfl rfl).2
      (by decide)

/-- C9: in logical-line splitting the continuation flag is set by a backslash
and never reset afterwards — once it is true it stays true under every
character, and processing any remaining characters from a flag-set state
appends all of them (newlines included) to the current line without ever
advancing the line index, so a single backslash merges all following lines. -/
theorem c9_continuation_never_resets :
    (∀ st : List (List Char) × Nat × Bool, (splitLinesStep st '\\').2.2 = true) ∧
    (∀ (st : List (List Char) × Nat × Bool) (ch : Char),
        st.2.2 = true → (splitLinesStep st ch).2.2 = true) ∧
    (∀ (cs : List Char) (out : List (List Char)) (i : Nat), i < out.length →
        cs.foldl splitLinesStep (out, i, true)
          = (out.set i (out.getD i [] ++ cs), i, true)) := by
  refine ⟨?_, ?_, ?_⟩
  · rintro ⟨out, i, esc⟩
    simp +decide [splitLinesStep]
  · rintro ⟨out, i, esc⟩ ch h
    simp only at h
    subst h
    simp [splitLinesStep, ite_self]
  · intro cs out i h
    exact splitLines_foldl_escaped cs out i h

/-- C9, witness: a backslash sets the flag; the flag survives an ordinary
character; and from a flag-set state the characters newline and `y` are both
appended to the current line. -/
theorem c9_continuation_never_resets_witness :
    (splitLinesStep ([[]], 0, false) '\\').2.2 = true ∧
    (splitLinesStep ([("a").data], 0, true) 'b').2.2 = true ∧
    List.foldl splitLinesStep ([("x").data], 0, true) (("\ny").data)
      = ([("x\ny").data], 0, true) := by
  refine ⟨c9_continuation_never_resets.1 _,
          c9_continuation_never_resets.2.1 _ _ rfl, ?_⟩
  have h := c9_continuation_never_resets.2.2 (("\ny").data) [("x").data] 0
    (by decide)
  rw [h]
  decide

/-- C10: a token of shape `pre@post` whose `pre` is not exactly `0`, `1` or
`2` is classified as the parse error `unknown indirect from`, and a statement
containing such an ordinary argument (like `user@example.com`) makes the
evaluation call print the diagnostic and abort: the remaining statements are
not evaluated, for every builtin/spawn behavior. -/
theorem c10_unknown_stream_digit :
    (∀ pre post : List Char, '@' ∉ pre →
      pre ≠ ("0").data → pre ≠ ("1").data → pre ≠ ("2").data →
      is_indirect (pre ++ '@' :: post) = .error unknownIndirectMsg) ∧
    (∀ (bR : BuiltinFn) (sp : SpawnFn) (rest : List (List Char)) (st : EvalSt),
      evalStatements bR sp ((("cmd user@example.com").data) :: rest) st
        = some (pushOut st (("sesh: unknown indirect from\r").data))) := by
  constructor
  · intro pre post h h0 h1 h2
    unfold is_indirect
    rw [splitOnceAt_append '@' pre post h]
    simp [h0, h1, h2]
  · intro bR sp rest st
    have hE : firstErr ((("cmd user@example.com").data)) = some unknownIndirectMsg := by
      decide
    simp [evalStatements, evalStatement, hE]
    congr 1

/-- C10, witness: `user@example.com` is classified as the parse error, and
the one-statement call `cmd user@example.com` ends with just the diagnostic
printed. -/
theorem c10_unknown_stream_digit_witness :
    is_indirect (("user@example.com").data) = .error unknownIndirectMsg ∧
    evalStatements (fun _ _ _ s => (0, s)) (fun _ _ => none)
        [("cmd user@example.com").data] ⟨[], [], []⟩
      = some ⟨[], [], [("sesh: unknown indirect from\r").data]⟩ := by
  constructor
  · have h := c10_unknown_stream_digit.1 (("user").data) (("example.com").data)
      (by decide) (by decide) (by decide) (by decide)
    exact h
  · have h := c10_unknown_stream_digit.2 (fun _ _ _ s => (0, s))
      (fun _ _ => none) [] ⟨[], [], []⟩
    simpa [pushOut] using h

/-- C5: in an evaluation call, when a statement parses cleanly (no
redirection error, program token is a plain word and non-empty), alias
expansion yields a program that is not a builtin, no unimplemented
redirection is present, and spawning the external process fails, then the
call prints the spawn diagnostic, sets `STATUS` to `127`, and evaluates none
of the remaining statements: the result is the same as if the failing
statement were the last one. -/
theorem c5_spawn_failure_aborts
    (bR : BuiltinFn) (sp : SpawnFn) (stmt : List Char)
    (rest : List (List Char)) (st : EvalSt) (q p0 prog : List Char)
    (ts : List IndirectRes) (ps parts2 : List (List Char))
    (env2 : List ShellVar)
    (hE : firstErr stmt = none)
    (hT : stmtTokens stmt = IndirectRes.statement q :: ts)
    (hP : stmtParts stmt = p0 :: ps)
    (hne : stmt ≠ []) (hp0 : p0 ≠ [])
    (hA : expandAliasesGo st.aliases p0 (p0 :: ps) = some (prog, parts2))
    (hB : prog ∉ builtinNames)
    (hTd : hasTodoIndirect (stmtIndirects stmt) = false)
    (hSp : sp prog (parts2.drop 1) = none)
    (hRm : removeStatusLoop st.shellEnv = some env2) :
    evalStatements bR sp (stmt :: rest) st
      = some { shellEnv := env2 ++ [⟨statusName, ("127").data⟩],
               aliases := st.aliases,
               out := st.out ++ [spawnErrMsg] } ∧
    evalStatements bR sp (stmt :: rest) st = evalStatements bR sp [stmt] st ∧
    statusOf (env2 ++ [⟨statusName, ("127").data⟩]) = some (("127").data) ∧
    spawnErrMsg ∈ st.out ++ [spawnErrMsg] := by
  have hstep : evalStatement bR sp stmt st
      = some (false, { shellEnv := env2 ++ [⟨statusName, ("127").data⟩],
                       aliases := st.aliases,
                       out := st.out ++ [spawnErrMsg] }) := by
    have hSp2 : sp prog parts2.tail = none := by
      rw [← List.drop_one]
      exact hSp
    simp [evalStatement, hE, hT, hP, hA, hSp2, hTd, hB, hne, hp0, pushOut, hRm]
  refine ⟨?_, ?_, ?_, ?_⟩
  · simp [evalStatements, hstep]
  · simp [evalStatements, hstep]
  · simp [statusOf, List.filter_append, statusName, lastElem_append_singleton]
  · simp

/-- C5, witness: the two-statement call `nosuchcmd x` then `echo hi`, with a
spawn oracle that always fails, ends after the first statement with the
spawn diagnostic printed and `STATUS` set to `127`. -/
theorem c5_spawn_failure_aborts_witness :
    evalStatements (fun _ _ _ s => (0, s)) (fun _ _ => none)
        [("nosuchcmd x").data, ("echo hi").data] ⟨[], [], []⟩
      = some { shellEnv := [⟨statusName, ("127").data⟩], aliases := [],
               out := [spawnErrMsg] } ∧
    statusOf [⟨statusName, ("127").data⟩] = some (("127").data) := by
  have h := c5_spawn_failure_aborts (fun _ _ _ s => (0, s)) (fun _ _ => none)
    (("nosuchcmd x").data) [("echo hi").data] ⟨[], [], []⟩
    (("nosuchcmd").data) (("nosuchcmd").data) (("nosuchcmd").data)
    [IndirectRes.statement (("x").data)] [("x").data]
    [("nosuchcmd").data, ("x").data] []
    (by decide) (by decide) (by decide) (by decide) (by decide)
    (by decide) (by decide) (by decide) rfl (by decide)
  exact ⟨by simpa using h.1, by simpa using h.2.2.1⟩
